import Mathlib

/-!
Verification development for `src/virtManager/inspection.py` (class `vmmInspection`).

The Python module runs a background inspection thread: a queue of connection
lifecycle events feeds a registry of local connections; each scan cycle walks
every registered connection's VM list, marks unseen VMs and inspects them once
via libguestfs (attach disks read-only, launch, detect OS roots, extract
metadata, best-effort mount, best-effort icon/application extraction, release).

The embedding below translates each method of the class into a Lean function.
Fallible Python operations (a `del` on a missing dict key, `conn.get_vm`
raising, `g.launch` raising, a missing attribute on the guestfs handle) are
modelled with `Except`/`Option` or with explicit success flags in the oracle
describing the libguestfs handle's behavior.
-/

namespace Inspection

/-- A disk device as used by `_process`: the fields `disk.path`,
`disk.driver_type` and `disk.type` read from `vm.get_disk_devices()`.
`path = none` models a `None` path. -/
structure Disk where
  path : Option String
  driver_type : Option String
  type : String
deriving DecidableEq

/-- A VM handle at the interface `_process` uses: `vm.get_disk_devices()`. -/
structure VM where
  get_disk_devices : List Disk
deriving DecidableEq

/-- A connection handle (`vmmConnection`) at the interface used by
`inspection.py`: `is_remote()`, `get_uri()`, `list_vm_uuids()`, `get_vm(uuid)`.
`get_vm u = none` models `conn.get_vm(u)` raising an exception. -/
structure Conn where
  is_remote : Bool
  get_uri : String
  list_vm_uuids : List String
  get_vm : String → Option VM

/-- Oracle for one fresh `GuestFS()` handle: what each libguestfs call used by
`_process` returns, and which fallible calls raise.  `launch_ok = false` models
`g.launch()` raising; `mountpoints_ok = false` models
`g.inspect_get_mountpoints` raising (the only fatal point inside the mount
`try` block); `has_product_variant`, `has_icon`, `has_list_applications` model
`hasattr`/attribute availability on the handle for the corresponding calls;
`mount_ro_ok dev mp = false` models `g.mount_ro(dev, mp)` raising. -/
structure GuestFS where
  launch_ok : Bool
  inspect_os : List String
  inspect_get_type : String → String
  inspect_get_distro : String → String
  inspect_get_major_version : String → Int
  inspect_get_minor_version : String → Int
  inspect_get_hostname : String → String
  inspect_get_product_name : String → String
  has_product_variant : Bool
  inspect_get_product_variant : String → String
  mountpoints_ok : Bool
  inspect_get_mountpoints : String → List (String × String)
  mount_ro_ok : String → String → Bool
  has_icon : Bool
  inspect_get_icon : String → String
  has_list_applications : Bool
  inspect_list_applications : String → List String

/-- One `g.add_drive_opts(path, readonly=1, format=driver_type)` call. -/
structure AttachOp where
  path : String
  readonly : Bool
  format : Option String
deriving DecidableEq

/-- The inspection results gathered by `_process` (lines 133-191). -/
structure Metadata where
  typ : String
  distro : String
  major_version : Int
  minor_version : Int
  hostname : String
  product_name : String
  product_variant : Option String
  icon : Option String
  apps : Option (List String)
deriving DecidableEq

/-- How one `_process` attempt ended: an exception escaped `_process`
(`raised`), the early return because no operating systems were found
(`no_os`), or normal completion with logged results (`inspected`). -/
inductive Outcome
  | raised
  | no_os
  | inspected (md : Metadata)
deriving DecidableEq

/-- `true` exactly on the normal-completion outcome. -/
def Outcome.isInspected : Outcome → Bool
  | Outcome.inspected _ => true
  | _ => false

/-- The `product_variant` field of a completed inspection, if any. -/
def Outcome.variantField : Outcome → Option (Option String)
  | Outcome.inspected md => some md.product_variant
  | _ => none

/-- The `icon` field of a completed inspection, if any. -/
def Outcome.iconField : Outcome → Option (Option String)
  | Outcome.inspected md => some md.icon
  | _ => none

/-- The `apps` field of a completed inspection, if any. -/
def Outcome.appsField : Outcome → Option (Option (List String))
  | Outcome.inspected md => some md.apps
  | _ => none

/-- Observable behavior of one `_process(conn, vm, vmuuid)` attempt:
the `add_drive_opts` calls made, the `mount_ro` calls made (in order, with
their `(device, mountpoint)` arguments), the final value of the
`filesystems_mounted` flag, the number of executed `del g` statements, and
how the attempt ended. -/
structure ProcessTrace where
  attached : List AttachOp
  mount_attempts : List (String × String)
  filesystems_mounted : Bool
  explicit_releases : Nat
  outcome : Outcome

/-- The attach loop of `_process` (lines 115-119): for each disk, call
`add_drive_opts(path, readonly=1, format=driver_type)` iff
`(disk.type == "block" or disk.type == "file") and path != None`. -/
def addDrives : List Disk → List AttachOp
  | [] => []
  | disk :: rest =>
    if (disk.type = "block" ∨ disk.type = "file") ∧ disk.path ≠ none then
      { path := disk.path.getD "", readonly := true, format := disk.driver_type } :: addDrives rest
    else
      addDrives rest

/-- The ordering used by `mps.sort(compare)` (lines 157-164): `compare`
orders two `(mountpoint, device)` pairs by the string length of the
mountpoint `a[0]`. -/
def mpLe (a b : String × String) : Prop := a.1.length ≤ b.1.length

instance : DecidableRel mpLe := fun a b => Nat.decLe a.1.length b.1.length

instance : IsTotal (String × String) mpLe := ⟨fun a b => Nat.le_total a.1.length b.1.length⟩

instance : IsTrans (String × String) mpLe := ⟨fun _ _ _ => Nat.le_trans⟩

/-- `mps.sort(compare)` (line 164): Python's `list.sort` with a comparator is
a stable sort by that comparator; `List.insertionSort` is the stable sort of
the `mpLe` ordering. -/
def sortMps (mps : List (String × String)) : List (String × String) :=
  List.insertionSort mpLe mps

/-- The mount loop of `_process` (lines 166-173): for each `(mountpoint,
device)` pair, attempt `g.mount_ro(mp_dev[1], mp_dev[0])`; an exception from
any single mount is caught by the inner `try` and ignored, and the loop
continues with the remaining pairs either way.  Returns the attempted
`(device, mountpoint)` argument pairs in order. -/
def mountLoop (g : GuestFS) : List (String × String) → List (String × String)
  | [] => []
  | mp_dev :: rest =>
    if g.mount_ro_ok mp_dev.2 mp_dev.1 then
      (mp_dev.2, mp_dev.1) :: mountLoop g rest
    else
      (mp_dev.2, mp_dev.1) :: mountLoop g rest

/-- Shallow embedding of `vmmInspection._process` (lines 112-204).
Control flow of the source: attach disks; `g.launch()` (raising aborts the
attempt); `inspect_os` with an early `return` when no roots; metadata
extraction with `inspect_get_product_variant` guarded by `hasattr`; the mount
phase inside an outer `try` whose only fatal point is
`inspect_get_mountpoints` (each `mount_ro` has its own inner `try`), setting
`filesystems_mounted = True` when it completes; then, only if mounted,
`inspect_get_icon` guarded by `hasattr` (with `""` normalized to `None`) and
an unguarded `inspect_list_applications` call (raising `AttributeError` when
the build lacks it); finally `del g` on the fall-through path only. -/
def process (g : GuestFS) (vm : VM) : ProcessTrace :=
  let attached := addDrives vm.get_disk_devices
  if g.launch_ok = false then
    { attached := attached, mount_attempts := [], filesystems_mounted := false,
      explicit_releases := 0, outcome := Outcome.raised }
  else
    match g.inspect_os with
    | [] =>
      { attached := attached, mount_attempts := [], filesystems_mounted := false,
        explicit_releases := 0, outcome := Outcome.no_os }
    | root :: _ =>
      let md0 : Metadata :=
        { typ := g.inspect_get_type root
          distro := g.inspect_get_distro root
          major_version := g.inspect_get_major_version root
          minor_version := g.inspect_get_minor_version root
          hostname := g.inspect_get_hostname root
          product_name := g.inspect_get_product_name root
          product_variant :=
            if g.has_product_variant then some (g.inspect_get_product_variant root) else none
          icon := none
          apps := none }
      if g.mountpoints_ok then
        let mount_attempts := mountLoop g (sortMps (g.inspect_get_mountpoints root))
        if g.has_list_applications then
          { attached := attached, mount_attempts := mount_attempts,
            filesystems_mounted := true, explicit_releases := 1,
            outcome := Outcome.inspected
              { md0 with
                icon :=
                  if g.has_icon then
                    (if g.inspect_get_icon root = "" then none else some (g.inspect_get_icon root))
                  else none
                apps := some (g.inspect_list_applications root) } }
        else
          { attached := attached, mount_attempts := mount_attempts,
            filesystems_mounted := true, explicit_releases := 0,
            outcome := Outcome.raised }
      else
        { attached := attached, mount_attempts := [], filesystems_mounted := false,
          explicit_releases := 1, outcome := Outcome.inspected md0 }

/-- Items put on `self._q` by `conn_added`, `conn_removed` and `vm_added`
(lines 41-52): `("conn_added", conn)`, `("conn_removed", uri)`,
`("vm_added")`.  A `None` connection payload is `conn_added none`. -/
inductive QueueItem
  | conn_added (conn : Option Conn)
  | conn_removed (uri : String)
  | vm_added

/-- The registry `self._conns`: a Python dict keyed by URI.  Modelled as an
association list; the operations below give it dict semantics (first binding
of a key wins on lookup). -/
abbrev ConnMap := List (String × Conn)

/-- `self._conns[uri]` lookup. -/
def mapGet : ConnMap → String → Option Conn
  | [], _ => none
  | (k, v) :: rest, uri => if k = uri then some v else mapGet rest uri

/-- `uri in self._conns`. -/
def mapHasKey : ConnMap → String → Bool
  | [], _ => false
  | (k, _) :: rest, uri => k = uri || mapHasKey rest uri

/-- `self._conns[uri] = conn`: overwrite the binding if the key is present,
otherwise add it. -/
def mapSet : ConnMap → String → Conn → ConnMap
  | [], uri, c => [(uri, c)]
  | (k, v) :: rest, uri, c =>
    if k = uri then (uri, c) :: rest else (k, v) :: mapSet rest uri c

/-- `del self._conns[uri]` when the key is present: drop every binding of the
key. -/
def mapDel : ConnMap → String → ConnMap
  | [], _ => []
  | (k, v) :: rest, uri =>
    if k = uri then mapDel rest uri else (k, v) :: mapDel rest uri

/-- Shallow embedding of `vmmInspection._process_queue_item` (lines 81-92).
`conn_added` keeps the connection iff it is non-`None` and not remote;
`conn_removed` performs `del self._conns[uri]`, which raises `KeyError` when
`uri` is not a key of the dict; `vm_added` does nothing. -/
def process_queue_item (conns : ConnMap) : QueueItem → Except String ConnMap
  | QueueItem.conn_added c =>
    match c with
    | some conn =>
      if conn.is_remote = false then Except.ok (mapSet conns conn.get_uri conn)
      else Except.ok conns
    | none => Except.ok conns
  | QueueItem.conn_removed uri =>
    if mapHasKey conns uri then Except.ok (mapDel conns uri) else Except.error "KeyError"
  | QueueItem.vm_added => Except.ok conns

/-- Actions observable from one iteration of the `run` loop body: an event
applied by `_process_queue_item`, or one `_process_vms` scan. -/
inductive WorkerAction
  | applied (obj : QueueItem)
  | scan

/-- `true` exactly on the scan action. -/
def WorkerAction.isScan : WorkerAction → Bool
  | WorkerAction.scan => true
  | WorkerAction.applied _ => false

/-- The drain loop of `vmmInspection._process_queue` (lines 69-79): the first
item is taken blocking, then items are taken non-blocking and applied in FIFO
order until the queue raises `Empty`.  The argument list is the queue content
at entry; an exception from `_process_queue_item` (the `KeyError` of
`conn_removed`) is not caught (`except Empty` does not match it) and
propagates. -/
def process_queue_items (conns : ConnMap) :
    List QueueItem → Except String (ConnMap × List WorkerAction)
  | [] => Except.ok (conns, [])
  | obj :: rest =>
    match process_queue_item conns obj with
    | Except.error e => Except.error e
    | Except.ok conns2 =>
      match process_queue_items conns2 rest with
      | Except.error e => Except.error e
      | Except.ok (conns3, tr) => Except.ok (conns3, WorkerAction.applied obj :: tr)

/-- The seen-set `self._vmseen` (keys of the dict, used as a set) together
with the trace of `_process` invocations made so far (pairs of vmuuid and the
resulting attempt trace, in invocation order). -/
structure VmsState where
  vmseen : List String
  processed : List (String × ProcessTrace)

/-- One iteration of the inner loop of `_process_vms` (lines 98-110) for a
single `vmuuid`: skip it when already seen; otherwise `conn.get_vm(vmuuid)`
(raising — modelled by `none` — is caught by the bare `except`, and nothing
was marked); on success mark the uuid seen and invoke `_process`, whose own
exception is also caught by the bare `except`.  `env vmuuid` is the behavior
of the fresh `GuestFS()` handle allocated inside `_process` for this vm. -/
def process_vm (env : String → GuestFS) (conn : Conn) (st : VmsState) (vmuuid : String) :
    VmsState :=
  if vmuuid ∈ st.vmseen then st
  else
    match conn.get_vm vmuuid with
    | none => st
    | some vm =>
      { vmseen := vmuuid :: st.vmseen,
        processed := st.processed ++ [(vmuuid, process (env vmuuid) vm)] }

/-- Shallow embedding of `vmmInspection._process_vms` (lines 95-110): iterate
the registered connections and, for each, its `list_vm_uuids()`. -/
def process_vms (env : String → GuestFS) (conns : List Conn) (st : VmsState) : VmsState :=
  conns.foldl (fun st1 conn => conn.list_vm_uuids.foldl (process_vm env conn) st1) st

/-- The scan cycles performed over the worker's lifetime (the `_process_vms`
call of each iteration of the `run` loop): each element of `cycles` is the
registry's connection list at that cycle. -/
def runScans (env : String → GuestFS) (cycles : List (List Conn)) (st : VmsState) : VmsState :=
  cycles.foldl (fun st1 conns => process_vms env conns st1) st

/-- One iteration of the body of the `run` loop (lines 62-65):
`_process_queue` drains the whole queue (first item blocking, the rest
non-blocking until `Empty`), then `_process_vms` performs one scan of the
registered connections.  `queue` is the queue content when the iteration
starts; the returned action list is the applied events followed by the scan. -/
def runCycle (env : String → GuestFS) (conns : ConnMap) (st : VmsState)
    (queue : List QueueItem) : Except String (ConnMap × VmsState × List WorkerAction) :=
  match process_queue_items conns queue with
  | Except.error e => Except.error e
  | Except.ok (conns2, tr) =>
    Except.ok (conns2, process_vms env (conns2.map Prod.snd) st, tr ++ [WorkerAction.scan])

/-- Spec-side characterization for C10 (not part of the source): among a
sequence of `conn_added` payloads, the most recently added connection that is
non-`None`, local, and has the given uri. -/
def lastLocalAdd (uri : String) : List (Option Conn) → Option Conn
  | [] => none
  | c :: rest =>
    match lastLocalAdd uri rest with
    | some c2 => some c2
    | none =>
      match c with
      | some conn =>
        if conn.is_remote = false ∧ conn.get_uri = uri then some conn else none
      | none => none

/-- A libguestfs handle oracle on which every call succeeds and reports a
fixed small system; individual scenarios below override fields. -/
def gStub : GuestFS :=
  { launch_ok := false
    inspect_os := []
    inspect_get_type := fun _ => "linux"
    inspect_get_distro := fun _ => "fedora"
    inspect_get_major_version := fun _ => 14
    inspect_get_minor_version := fun _ => 0
    inspect_get_hostname := fun _ => "guest"
    inspect_get_product_name := fun _ => "Fedora 14"
    has_product_variant := false
    inspect_get_product_variant := fun _ => ""
    mountpoints_ok := true
    inspect_get_mountpoints := fun _ => []
    mount_ro_ok := fun _ _ => true
    has_icon := false
    inspect_get_icon := fun _ => ""
    has_list_applications := true
    inspect_list_applications := fun _ => [] }

/-- Engine environment assigning `gStub` to every vm. -/
def env0 : String → GuestFS := fun _ => gStub

/-- A vm with no disk devices. -/
def vmEmpty : VM := ⟨[]⟩

/-- A local connection with an empty vm list, for concrete scenarios. -/
def connLocalA : Conn :=
  { is_remote := false, get_uri := "qemu:///a", list_vm_uuids := [], get_vm := fun _ => none }

/-- A second local connection registered under the same uri as `connLocalA`. -/
def connLocalA2 : Conn :=
  { is_remote := false, get_uri := "qemu:///a", list_vm_uuids := ["m1"], get_vm := fun _ => none }

theorem mapGet_mapDel_self (m : ConnMap) (uri : String) : mapGet (mapDel m uri) uri = none := by
  induction m with
  | nil => rfl
  | cons kv rest ih =>
    obtain ⟨k, v⟩ := kv
    by_cases h : k = uri
    · simp [mapDel, h, ih]
    · simp [mapDel, mapGet, h, ih]

theorem mapGet_mapDel_ne (m : ConnMap) (uri u : String) (h : u ≠ uri) :
    mapGet (mapDel m uri) u = mapGet m u := by
  induction m with
  | nil => rfl
  | cons kv rest ih =>
    obtain ⟨k, v⟩ := kv
    by_cases hk : k = uri
    · subst hk
      have hku : ¬ k = u := fun hh => h hh.symm
      simp [mapDel, mapGet, hku, ih]
    · by_cases hku : k = u
      · subst hku
        simp [mapDel, mapGet, hk]
      · simp [mapDel, mapGet, hk, hku, ih]

theorem mapGet_mapSet_self (m : ConnMap) (uri : String) (c : Conn) :
    mapGet (mapSet m uri c) uri = some c := by
  induction m with
  | nil => simp [mapSet, mapGet]
  | cons kv rest ih =>
    obtain ⟨k, v⟩ := kv
    by_cases h : k = uri
    · simp [mapSet, h, mapGet]
    · simp [mapSet, mapGet, h, ih]

theorem mapGet_mapSet_ne (m : ConnMap) (uri u : String) (c : Conn) (h : u ≠ uri) :
    mapGet (mapSet m uri c) u = mapGet m u := by
  have hne : ¬ uri = u := fun hh => h hh.symm
  induction m with
  | nil => simp [mapSet, mapGet, hne]
  | cons kv rest ih =>
    obtain ⟨k, v⟩ := kv
    by_cases hk : k = uri
    · subst hk
      simp [mapSet, mapGet, hne]
    · simp [mapSet, mapGet, hk, ih]

/-- C1 counterexample: applying `ConnectionRemoved` for a uri with no entry in
the (empty) registry raises a `KeyError` instead of being a silent no-op:
`_process_queue_item` executes `del self._conns[uri]` unguarded. -/
theorem C1_removed_cex :
    process_queue_item [] (QueueItem.conn_removed "qemu:///system") =
      Except.error "KeyError" := rfl

/-- C1 (amended): applying a `ConnectionRemoved` event for a uri that has a
registry entry removes exactly that entry, leaving every other entry
unchanged; for a uri with no entry, the unguarded `del self._conns[uri]`
raises a `KeyError` which the drain loop's `except Empty` does not catch, so
it propagates out of queue processing (the registry itself is not mutated in
that case). -/
theorem C1_conn_removed (conns : ConnMap) (uri u : String) (rest : List QueueItem) :
    (mapHasKey conns uri = false →
      process_queue_items conns (QueueItem.conn_removed uri :: rest) =
        Except.error "KeyError") ∧
    (mapHasKey conns uri = true →
      process_queue_item conns (QueueItem.conn_removed uri) = Except.ok (mapDel conns uri) ∧
      mapGet (mapDel conns uri) uri = none ∧
      (u ≠ uri → mapGet (mapDel conns uri) u = mapGet conns u)) := by
  constructor
  · intro h
    simp [process_queue_items, process_queue_item, h]
  · intro h
    exact ⟨by simp [process_queue_item, h], mapGet_mapDel_self conns uri,
      fun hu => mapGet_mapDel_ne conns uri u hu⟩

/-- C1 witness: for a registry holding `qemu:///a`, removal succeeds, the
entry is gone, and the lookup of a different uri is unchanged. -/
theorem C1_conn_removed_w :
    process_queue_item [("qemu:///a", connLocalA)] (QueueItem.conn_removed "qemu:///a") =
      Except.ok (mapDel [("qemu:///a", connLocalA)] "qemu:///a") ∧
    mapGet (mapDel [("qemu:///a", connLocalA)] "qemu:///a") "qemu:///a" = none ∧
    ("qemu:///b" ≠ "qemu:///a" →
      mapGet (mapDel [("qemu:///a", connLocalA)] "qemu:///a") "qemu:///b" =
        mapGet [("qemu:///a", connLocalA)] "qemu:///b") :=
  (C1_conn_removed [("qemu:///a", connLocalA)] "qemu:///a" "qemu:///b" []).2 (by decide)

/-- Helper for C10: a sequence of `conn_added` events always processes without
error, and the final registry maps each uri to the most recently added
non-`None` local connection with that uri (falling back to the original
binding when there is none). -/
theorem queue_adds_last_writer (uri : String) (adds : List (Option Conn)) (conns : ConnMap) :
    ∃ c2 tr, process_queue_items conns (adds.map QueueItem.conn_added) = Except.ok (c2, tr) ∧
      mapGet c2 uri =
        (match lastLocalAdd uri adds with
         | some conn => some conn
         | none => mapGet conns uri) := by
  induction adds generalizing conns with
  | nil => exact ⟨conns, [], rfl, by simp [lastLocalAdd]⟩
  | cons a rest ih =>
    have hstep : ∀ conns1 : ConnMap, ∃ conns2,
        process_queue_item conns1 (QueueItem.conn_added a) = Except.ok conns2 := by
      intro conns1
      cases a with
      | none => exact ⟨conns1, rfl⟩
      | some conn =>
        by_cases hr : conn.is_remote = false
        · exact ⟨mapSet conns1 conn.get_uri conn, by simp [process_queue_item, hr]⟩
        · exact ⟨conns1, by simp [process_queue_item, hr]⟩
    obtain ⟨conns2, h2⟩ := hstep conns
    obtain ⟨c2, tr, hrest, hget⟩ := ih conns2
    refine ⟨c2, WorkerAction.applied (QueueItem.conn_added a) :: tr, ?_, ?_⟩
    · simp [process_queue_items, h2, hrest]
    · rw [hget]
      cases hl : lastLocalAdd uri rest with
      | some cc => simp [lastLocalAdd, hl]
      | none =>
        simp only [lastLocalAdd, hl]
        cases a with
        | none =>
          have h3 := h2
          simp only [process_queue_item, Except.ok.injEq] at h3
          subst h3
          simp
        | some conn =>
          by_cases hr : conn.is_remote = false
          · have h3 := h2
            simp only [process_queue_item, hr, if_true, Except.ok.injEq] at h3
            subst h3
            by_cases hu : conn.get_uri = uri
            · subst hu
              simp [hr, mapGet_mapSet_self]
            · simp [hr, hu, mapGet_mapSet_ne conns conn.get_uri uri conn
                (fun hh => hu hh.symm)]
          · have h3 := h2
            simp [process_queue_item, hr] at h3
            subst h3
            simp [hr]

/-- C10: applying `ConnectionAdded` for a non-`None` local connection never
raises and overwrites any existing registry entry for its uri
(last-writer-wins), and over any sequence of `ConnectionAdded` events the
final registry maps each uri to the most recently added non-`None` local
connection with that uri, never an older handle. -/
theorem C10_last_writer (conns : ConnMap) (adds : List (Option Conn)) (uri : String)
    (c : Conn) :
    (c.is_remote = false →
      process_queue_item conns (QueueItem.conn_added (some c)) =
        Except.ok (mapSet conns c.get_uri c) ∧
      mapGet (mapSet conns c.get_uri c) c.get_uri = some c) ∧
    (∃ c2 tr, process_queue_items conns (adds.map QueueItem.conn_added) = Except.ok (c2, tr) ∧
      mapGet c2 uri =
        (match lastLocalAdd uri adds with
         | some conn => some conn
         | none => mapGet conns uri)) := by
  constructor
  · intro hr
    exact ⟨by simp [process_queue_item, hr], mapGet_mapSet_self conns c.get_uri c⟩
  · exact queue_adds_last_writer uri adds conns

/-- C10 witness: adding a local connection to a registry that already binds
its uri to an older handle succeeds and the lookup returns the new handle. -/
theorem C10_last_writer_w :
    process_queue_item [("qemu:///a", connLocalA)] (QueueItem.conn_added (some connLocalA2)) =
      Except.ok (mapSet [("qemu:///a", connLocalA)] connLocalA2.get_uri connLocalA2) ∧
    mapGet (mapSet [("qemu:///a", connLocalA)] connLocalA2.get_uri connLocalA2)
      connLocalA2.get_uri = some connLocalA2 :=
  (C10_last_writer [("qemu:///a", connLocalA)] [] "qemu:///a" connLocalA2).1 rfl

/-- The `attached` component of a `_process` trace is the attach loop's output
on every control path (the attach phase runs before any fallible step). -/
theorem process_attached (g : GuestFS) (vm : VM) :
    (process g vm).attached = addDrives vm.get_disk_devices := by
  unfold process
  by_cases h1 : g.launch_ok = false
  · simp [h1]
  · cases hos : g.inspect_os with
    | nil => simp [h1, hos]
    | cons root rest =>
      by_cases h3 : g.mountpoints_ok
      · by_cases h4 : g.has_list_applications <;> simp [h1, hos, h3, h4]
      · simp [h1, hos, h3]

/-- Membership in the attach loop's output, characterized disk by disk. -/
theorem mem_addDrives (a : AttachOp) :
    ∀ l : List Disk, a ∈ addDrives l ↔
      ∃ d ∈ l, ((d.type = "block" ∨ d.type = "file") ∧ d.path ≠ none) ∧
        a = { path := d.path.getD "", readonly := true, format := d.driver_type } := by
  intro l
  induction l with
  | nil => simp [addDrives]
  | cons d rest ih =>
    by_cases hc : (d.type = "block" ∨ d.type = "file") ∧ d.path ≠ none
    · simp only [addDrives, if_pos hc, List.mem_cons, ih]
      constructor
      · rintro (rfl | ⟨d2, hd2, hc2, rfl⟩)
        · exact ⟨d, Or.inl rfl, hc, rfl⟩
        · exact ⟨d2, Or.inr hd2, hc2, rfl⟩
      · rintro ⟨d2, hd2, hc2, rfl⟩
        rcases hd2 with rfl | hd2r
        · exact Or.inl rfl
        · exact Or.inr ⟨d2, hd2r, hc2, rfl⟩
    · simp only [addDrives, if_neg hc, ih]
      constructor
      · rintro ⟨d2, hd2, hc2, rfl⟩
        exact ⟨d2, List.mem_cons_of_mem d hd2, hc2, rfl⟩
      · rintro ⟨d2, hd2, hc2, rfl⟩
        rcases List.mem_cons.mp hd2 with rfl | hd2r
        · exact absurd hc2 hc
        · exact ⟨d2, hd2r, hc2, rfl⟩

/-- C8: `_process` attaches a drive for a disk device if and only if the disk's
type is "block" or "file" and its path is non-`None`; every attachment is made
read-only (`readonly=1`) and passes the disk's `driver_type` as the format
hint — no drive is ever attached writable. -/
theorem C8_attach_readonly (g : GuestFS) (vm : VM) (a : AttachOp) :
    (a ∈ (process g vm).attached ↔
      ∃ d ∈ vm.get_disk_devices, (d.type = "block" ∨ d.type = "file") ∧
        d.path = some a.path ∧ a.readonly = true ∧ a.format = d.driver_type) ∧
    (a ∈ (process g vm).attached → a.readonly = true) := by
  constructor
  · rw [process_attached, mem_addDrives]
    constructor
    · rintro ⟨d, hd, ⟨hty, hp⟩, rfl⟩
      cases hpath : d.path with
      | none => exact absurd hpath hp
      | some p => exact ⟨d, hd, hty, by simp [hpath], rfl, rfl⟩
    · rintro ⟨d, hd, hty, hp, hro, hfmt⟩
      refine ⟨d, hd, ⟨hty, by simp [hp]⟩, ?_⟩
      obtain ⟨ap, aro, afmt⟩ := a
      simp only [AttachOp.mk.injEq]
      simp only at hp hro hfmt
      exact ⟨by simp [hp], hro, hfmt⟩
  · intro ha
    rw [process_attached, mem_addDrives] at ha
    obtain ⟨d, _, _, rfl⟩ := ha
    rfl

/-- C4 counterexample: an attempt that launches but finds no OS roots takes
the early `return` at line 128 and never reaches the `del g` at line 194: the
no-roots exit path performs zero explicit releases. -/
theorem C4_release_cex :
    (process { gStub with launch_ok := true } vmEmpty).outcome = Outcome.no_os ∧
    (process { gStub with launch_ok := true } vmEmpty).explicit_releases = 0 :=
  ⟨rfl, rfl⟩

/-- C4 (amended): the explicit teardown `del g` runs exactly once on attempts
that complete normally and report results, and zero times on the no-roots
early return and on every raising exit path (launch failure, missing
application-listing attribute); on those paths `_process` itself performs no
release and teardown is left to interpreter finalization of the local
handle. -/
theorem C4_release_only_on_completion (g : GuestFS) (vm : VM) :
    (process g vm).explicit_releases =
      (if (process g vm).outcome.isInspected then 1 else 0) := by
  unfold process
  by_cases h1 : g.launch_ok = false
  · simp [h1, Outcome.isInspected]
  · cases hos : g.inspect_os with
    | nil => simp [h1, hos, Outcome.isInspected]
    | cons root rest =>
      by_cases h3 : g.mountpoints_ok
      · by_cases h4 : g.has_list_applications <;>
          simp [h1, hos, h3, h4, Outcome.isInspected]
      · simp [h1, hos, h3, Outcome.isInspected]

/-- An engine build lacking `inspect_list_applications`, with launch, one OS
root and the mountpoints call all succeeding. -/
def gNoApps : GuestFS :=
  { gStub with launch_ok := true, inspect_os := ["/dev/sda2"],
               has_list_applications := false }

/-- C5 counterexample: on a build lacking only the application-listing
capability, the unguarded `g.inspect_list_applications(root)` call at line 191
raises `AttributeError`, so the whole inspection attempt raises instead of
succeeding with `apps = None`. -/
theorem C5_apps_cex : (process gNoApps vmEmpty).outcome = Outcome.raised := rfl

/-- C5 (amended): the product-variant and icon capabilities degrade
gracefully and independently (each guarded by `hasattr`; when absent the
field is left `None` and the inspection still completes), but the
application-listing call is unguarded: on a build lacking it, any attempt
whose mount phase completed raises and aborts instead of completing with
`apps = None`. -/
theorem C5_optional_caps (g : GuestFS) (vm : VM) (root : String) (rest : List String)
    (h1 : g.launch_ok = true) (h2 : g.inspect_os = root :: rest)
    (h3 : g.mountpoints_ok = true) :
    (g.has_list_applications = true →
      (process g vm).outcome.isInspected = true ∧
      (g.has_product_variant = false →
        (process g vm).outcome.variantField = some none) ∧
      (g.has_icon = false → (process g vm).outcome.iconField = some none)) ∧
    (g.has_list_applications = false → (process g vm).outcome = Outcome.raised) := by
  unfold process
  rw [h2]
  constructor
  · intro h4
    refine ⟨?_, ?_, ?_⟩
    · simp [h1, h3, h4, Outcome.isInspected]
    · intro h5
      simp [h1, h3, h4, h5, Outcome.variantField]
    · intro h5
      simp [h1, h3, h4, h5, Outcome.iconField]
  · intro h4
    simp [h1, h3, h4]

/-- An engine that launches and finds one OS root, with all capabilities of
`gStub` (no product-variant, no icon, application listing available). -/
def gLaunched : GuestFS := { gStub with launch_ok := true, inspect_os := ["/dev/sda2"] }

/-- C5 witness: on `gLaunched` (variant and icon capabilities absent,
application listing present) the inspection completes with both optional
fields `None`; the missing-apps conjunct is vacuous there. -/
theorem C5_optional_caps_w :
    (gLaunched.has_list_applications = true →
      (process gLaunched vmEmpty).outcome.isInspected = true ∧
      (gLaunched.has_product_variant = false →
        (process gLaunched vmEmpty).outcome.variantField = some none) ∧
      (gLaunched.has_icon = false →
        (process gLaunched vmEmpty).outcome.iconField = some none)) ∧
    (gLaunched.has_list_applications = false →
      (process gLaunched vmEmpty).outcome = Outcome.raised) :=
  C5_optional_caps gLaunched vmEmpty "/dev/sda2" [] rfl rfl rfl

/-- C6: the sort `_process` applies before mounting orders the
`(mountpoint, device)` pairs by ascending mountpoint string length — in the
sorted list every earlier pair's mountpoint length is at most every later
one's, so every strictly shorter mountpoint (e.g. `/`) is attempted before
every strictly longer one (e.g. `/var`, then `/var/lib`) — and the sorted
list is a permutation of the input pairs. -/
theorem C6_mount_order (mps : List (String × String)) :
    List.Pairwise (fun a b : String × String => a.1.length ≤ b.1.length) (sortMps mps) ∧
    List.Perm (sortMps mps) mps :=
  ⟨List.sorted_insertionSort mpLe mps, List.perm_insertionSort mpLe mps⟩

/-- The mount loop attempts every pair, in order, whatever `mount_ro` does:
each iteration's outcome is caught by the inner `try` and the loop continues
either way. -/
theorem mountLoop_attempts_all (g : GuestFS) :
    ∀ mps : List (String × String),
      mountLoop g mps = mps.map (fun mp_dev => (mp_dev.2, mp_dev.1)) := by
  intro mps
  induction mps with
  | nil => rfl
  | cons mp rest ih =>
    by_cases h : g.mount_ro_ok mp.2 mp.1 <;> simp [mountLoop, h, ih]

/-- C7: within one machine's attempt whose mount phase starts (launch
succeeded, a root was found, `inspect_get_mountpoints` returned), the
`mount_ro` attempts are exactly all sorted pairs in order — independently of
which individual mounts raise, since each failure is caught and ignored —
the mount phase is recorded as completed (`filesystems_mounted = True`), and
icon/application extraction still proceeds (the attempt completes with an
application list whenever the engine has that capability). -/
theorem C7_mount_failure_isolated (g : GuestFS) (vm : VM) (root : String)
    (rest : List String) (h1 : g.launch_ok = true) (h2 : g.inspect_os = root :: rest)
    (h3 : g.mountpoints_ok = true) :
    (process g vm).mount_attempts =
      (sortMps (g.inspect_get_mountpoints root)).map (fun mp_dev => (mp_dev.2, mp_dev.1)) ∧
    (process g vm).filesystems_mounted = true ∧
    (g.has_list_applications = true →
      (process g vm).outcome.isInspected = true ∧
      (process g vm).outcome.appsField = some (some (g.inspect_list_applications root))) := by
  unfold process
  rw [h2]
  refine ⟨?_, ?_, ?_⟩
  · by_cases h4 : g.has_list_applications <;>
      simp [h1, h3, h4, mountLoop_attempts_all]
  · by_cases h4 : g.has_list_applications <;> simp [h1, h3, h4]
  · intro h4
    constructor
    · simp [h1, h3, h4, Outcome.isInspected]
    · simp [h1, h3, h4, Outcome.appsField]

/-- An engine with three mountpoints for the root where mounting `/var`
raises and the other mounts succeed. -/
def gMountVarFails : GuestFS :=
  { gStub with
      launch_ok := true
      inspect_os := ["/dev/sda2"]
      inspect_get_mountpoints :=
        fun _ => [("/var", "/dev/sda5"), ("/", "/dev/sda2"), ("/home", "/dev/sda7")]
      mount_ro_ok := fun _ mp => mp != "/var" }

/-- C7 witness: with `/var` failing to mount, all three sorted pairs are still
attempted, the mount phase completes, and the application list is extracted. -/
theorem C7_mount_failure_isolated_w :
    (process gMountVarFails vmEmpty).mount_attempts =
      (sortMps (gMountVarFails.inspect_get_mountpoints "/dev/sda2")).map
        (fun mp_dev => (mp_dev.2, mp_dev.1)) ∧
    (process gMountVarFails vmEmpty).filesystems_mounted = true ∧
    (gMountVarFails.has_list_applications = true →
      (process gMountVarFails vmEmpty).outcome.isInspected = true ∧
      (process gMountVarFails vmEmpty).outcome.appsField =
        some (some (gMountVarFails.inspect_list_applications "/dev/sda2"))) :=
  C7_mount_failure_isolated gMountVarFails vmEmpty "/dev/sda2" [] rfl rfl rfl

/-- A connection whose `get_vm` raises for `vmA` and succeeds for `vmB`. -/
def connGetVmFails : Conn :=
  { is_remote := false, get_uri := "qemu:///session",
    list_vm_uuids := ["vmA", "vmB"],
    get_vm := fun u => if u = "vmB" then some vmEmpty else none }

/-- C2 counterexample: scanning a connection where fetching `vmA`'s handle
raises leaves `vmA` out of the seen-set (because `conn.get_vm` runs before
`self._vmseen[vmuuid] = True`), even though the exception is caught and the
scan continues to inspect `vmB` in the same cycle. -/
theorem C2_seen_cex :
    (process_vms env0 [connGetVmFails] ⟨[], []⟩).vmseen = ["vmB"] ∧
    ¬ "vmA" ∈ (process_vms env0 [connGetVmFails] ⟨[], []⟩).vmseen := by
  have h : (process_vms env0 [connGetVmFails] ⟨[], []⟩).vmseen = ["vmB"] := rfl
  exact ⟨h, by rw [h]; decide⟩

/-- C2 (amended): an unseen identifier is marked seen only after
`conn.get_vm` succeeds, and before `_process` runs — so a failure anywhere
inside `_process` still leaves it seen and recorded as invoked; but when
`conn.get_vm` itself raises, the identifier is not marked seen and nothing is
recorded (it will be reconsidered in a later cycle); in both cases the
exception is confined by the bare `except` and the loop proceeds with the
remaining identifiers from the resulting state. -/
theorem C2_seen_before_inspection (env : String → GuestFS) (conn : Conn) (st : VmsState)
    (u : String) (vm : VM) (rest : List String) (hu : u ∉ st.vmseen) :
    (conn.get_vm u = some vm →
      process_vm env conn st u =
        { vmseen := u :: st.vmseen,
          processed := st.processed ++ [(u, process (env u) vm)] }) ∧
    (conn.get_vm u = none → process_vm env conn st u = st) ∧
    (conn.get_vm u = none →
      List.foldl (process_vm env conn) st (u :: rest) =
        List.foldl (process_vm env conn) st rest) := by
  refine ⟨?_, ?_, ?_⟩
  · intro hv
    simp [process_vm, hu, hv]
  · intro hv
    simp [process_vm, hu, hv]
  · intro hv
    simp only [List.foldl_cons]
    rw [show process_vm env conn st u = st from by simp [process_vm, hu, hv]]

/-- C2 witness: on the concrete connection, fetching `vmB` succeeds, so
`vmB` is marked seen and its inspection recorded; the `get_vm`-raises
conjuncts are vacuous for `vmB`. -/
theorem C2_seen_before_inspection_w :
    (connGetVmFails.get_vm "vmB" = some vmEmpty →
      process_vm env0 connGetVmFails ⟨[], []⟩ "vmB" =
        { vmseen := "vmB" :: [],
          processed := [] ++ [("vmB", process (env0 "vmB") vmEmpty)] }) ∧
    (connGetVmFails.get_vm "vmB" = none →
      process_vm env0 connGetVmFails ⟨[], []⟩ "vmB" = ⟨[], []⟩) ∧
    (connGetVmFails.get_vm "vmB" = none →
      List.foldl (process_vm env0 connGetVmFails) ⟨[], []⟩ ["vmB"] =
        List.foldl (process_vm env0 connGetVmFails) ⟨[], []⟩ []) :=
  C2_seen_before_inspection env0 connGetVmFails ⟨[], []⟩ "vmB" vmEmpty [] (by decide)

/-- The de-duplication invariant behind C3: the uuid `u` has been handed to
`_process` at most once so far, and not at all while it is still unseen. -/
def SeenInv (u : String) (st : VmsState) : Prop :=
  st.processed.countP (fun pr => pr.1 == u) ≤ 1 ∧
  (u ∉ st.vmseen → st.processed.countP (fun pr => pr.1 == u) = 0)

theorem foldl_preserves {α β : Type} (P : α → Prop) (f : α → β → α)
    (hf : ∀ a b, P a → P (f a b)) :
    ∀ (l : List β) (a : α), P a → P (List.foldl f a l)
  | [], _, h => h
  | b :: l, a, h => foldl_preserves P f hf l (f a b) (hf a b h)

theorem process_vm_inv (env : String → GuestFS) (u : String) (conn : Conn)
    (st : VmsState) (u2 : String) (h : SeenInv u st) :
    SeenInv u (process_vm env conn st u2) := by
  obtain ⟨h1, h2⟩ := h
  by_cases hmem : u2 ∈ st.vmseen
  · simpa [process_vm, hmem] using ⟨h1, h2⟩
  · cases hv : conn.get_vm u2 with
    | none => simpa [process_vm, hmem, hv] using ⟨h1, h2⟩
    | some vm =>
      have heq : process_vm env conn st u2 =
          { vmseen := u2 :: st.vmseen,
            processed := st.processed ++ [(u2, process (env u2) vm)] } := by
        simp [process_vm, hmem, hv]
      rw [heq]
      constructor
      · show (st.processed ++ [(u2, process (env u2) vm)]).countP (fun pr => pr.1 == u) ≤ 1
        rw [List.countP_append]
        by_cases hu2 : u2 = u
        · subst hu2
          rw [h2 hmem]
          simp
        · have hz : List.countP (fun pr => pr.1 == u) [(u2, process (env u2) vm)] = 0 := by
            simp [hu2]
          omega
      · intro hnot
        show (st.processed ++ [(u2, process (env u2) vm)]).countP (fun pr => pr.1 == u) = 0
        have hnu2 : ¬ u = u2 := fun hh => hnot (by simp [hh])
        have hns : u ∉ st.vmseen := fun hh => hnot (by simp [hh])
        have hne : ¬ u2 = u := fun hh => hnu2 hh.symm
        have hz : List.countP (fun pr => pr.1 == u) [(u2, process (env u2) vm)] = 0 := by
          simp [hne]
        rw [List.countP_append, h2 hns, hz]

/-- C3: at-most-once inspection — starting from the initial state, over any
sequence of scan cycles (with arbitrary and arbitrarily repeating vm lists),
`_process` is invoked at most once for any given machine identifier across
the worker's lifetime. -/
theorem C3_at_most_once (env : String → GuestFS) (cycles : List (List Conn)) (u : String) :
    (runScans env cycles ⟨[], []⟩).processed.countP (fun pr => pr.1 == u) ≤ 1 := by
  have hinv : SeenInv u (runScans env cycles ⟨[], []⟩) := by
    unfold runScans
    refine foldl_preserves (SeenInv u) _ ?_ cycles ⟨[], []⟩ ?_
    · intro st conns h
      exact foldl_preserves (SeenInv u)
        (fun st1 conn => conn.list_vm_uuids.foldl (process_vm env conn) st1)
        (fun st1 conn h1 => foldl_preserves (SeenInv u) (process_vm env conn)
          (fun a b ha => process_vm_inv env u conn a b ha) conn.list_vm_uuids st1 h1)
        conns st h
    · exact ⟨by simp, fun _ => by simp⟩
  exact hinv.1

/-- Unfolding equation for the drain loop at a successfully applied head
item. -/
theorem process_queue_items_cons_ok (conns conns2 : ConnMap) (obj : QueueItem)
    (rest : List QueueItem) (h1 : process_queue_item conns obj = Except.ok conns2) :
    process_queue_items conns (obj :: rest) =
      (match process_queue_items conns2 rest with
       | Except.error e => Except.error e
       | Except.ok (conns3, tr) =>
         Except.ok (conns3, WorkerAction.applied obj :: tr)) := by
  conv_lhs => rw [process_queue_items]
  rw [h1]

/-- The drain loop records exactly the queued items, applied in FIFO order. -/
theorem process_queue_items_trace :
    ∀ (items : List QueueItem) (conns c2 : ConnMap) (tr : List WorkerAction),
      process_queue_items conns items = Except.ok (c2, tr) →
      tr = items.map WorkerAction.applied := by
  intro items
  induction items with
  | nil =>
    intro conns c2 tr h
    simp only [process_queue_items, Except.ok.injEq, Prod.mk.injEq] at h
    simp [← h.2]
  | cons obj rest ih =>
    intro conns c2 tr h
    cases h1 : process_queue_item conns obj with
    | error e =>
      unfold process_queue_items at h
      rw [h1] at h
      exact absurd h (by simp)
    | ok conns2 =>
      rw [process_queue_items_cons_ok conns conns2 obj rest h1] at h
      cases h2 : process_queue_items conns2 rest with
      | error e => rw [h2] at h; exact absurd h (by simp)
      | ok pr =>
        obtain ⟨c3, tr3⟩ := pr
        rw [h2] at h
        simp only [Except.ok.injEq, Prod.mk.injEq] at h
        rw [← h.2]
        simp [ih conns2 c3 tr3 h2]

/-- C9: one iteration of the `run` loop drains the entire queue before
scanning: when the drain succeeds, the action trace is every queued event
applied in FIFO order followed by exactly one scan — a burst of n queued
events yields one scan cycle, not n — and the scan operates on the registry
as updated by all drained events. -/
theorem C9_event_coalescing (env : String → GuestFS) (conns c2 : ConnMap)
    (st st2 : VmsState) (first : QueueItem) (rest : List QueueItem)
    (tr : List WorkerAction)
    (h : runCycle env conns st (first :: rest) = Except.ok (c2, st2, tr)) :
    tr = (first :: rest).map WorkerAction.applied ++ [WorkerAction.scan] ∧
    tr.countP WorkerAction.isScan = 1 ∧
    st2 = process_vms env (c2.map Prod.snd) st := by
  unfold runCycle at h
  cases hq : process_queue_items conns (first :: rest) with
  | error e => rw [hq] at h; exact absurd h (by simp)
  | ok pr =>
    obtain ⟨c3, tr3⟩ := pr
    rw [hq] at h
    simp only [Except.ok.injEq, Prod.mk.injEq] at h
    obtain ⟨hc, hst, htr⟩ := h
    have htr3 := process_queue_items_trace (first :: rest) conns c3 tr3 hq
    subst hc
    refine ⟨?_, ?_, ?_⟩
    · rw [← htr, htr3]
    · rw [← htr, htr3]
      rw [List.countP_append, List.countP_map]
      simp [Function.comp_def, WorkerAction.isScan]
    · rw [← hst]

/-- C9 witness: a burst of five queued events on an empty registry drains in
one iteration whose trace applies all five events and then scans exactly
once. -/
theorem C9_event_coalescing_w :
    ([WorkerAction.applied QueueItem.vm_added, WorkerAction.applied QueueItem.vm_added,
      WorkerAction.applied QueueItem.vm_added, WorkerAction.applied QueueItem.vm_added,
      WorkerAction.applied QueueItem.vm_added, WorkerAction.scan] : List WorkerAction) =
      (QueueItem.vm_added :: [QueueItem.vm_added, QueueItem.vm_added, QueueItem.vm_added,
        QueueItem.vm_added]).map WorkerAction.applied ++ [WorkerAction.scan] ∧
    ([WorkerAction.applied QueueItem.vm_added, WorkerAction.applied QueueItem.vm_added,
      WorkerAction.applied QueueItem.vm_added, WorkerAction.applied QueueItem.vm_added,
      WorkerAction.applied QueueItem.vm_added, WorkerAction.scan] : List WorkerAction).countP
        WorkerAction.isScan = 1 ∧
    (⟨[], []⟩ : VmsState) = process_vms env0 (([] : ConnMap).map Prod.snd) ⟨[], []⟩ :=
  C9_event_coalescing env0 [] [] ⟨[], []⟩ ⟨[], []⟩ QueueItem.vm_added
    [QueueItem.vm_added, QueueItem.vm_added, QueueItem.vm_added, QueueItem.vm_added]
    [WorkerAction.applied QueueItem.vm_added, WorkerAction.applied QueueItem.vm_added,
     WorkerAction.applied QueueItem.vm_added, WorkerAction.applied QueueItem.vm_added,
     WorkerAction.applied QueueItem.vm_added, WorkerAction.scan] rfl

end Inspection
